import Mathlib

/- A verification development for the film densitometry plotter
(`densitometer_plot.py`).  The core numeric routines are shallowly embedded
over `ℚ`: the sliding-window regression search `calculate_contrast_index`,
the nearest-sample average gradient `calculate_average_gradient`, and the
speed-point interpolation and minimum-density selection performed inline in
`plot_densitometry`.  Fallible library calls are modelled with `Except` /
`Option`: `scipy.stats.linregress` raises `ValueError` when all x values of
a window are identical, and Python's `None < float` comparison raises
`TypeError`.  `np.log10` does not raise on nonpositive input; it produces
non-real values (`-inf` for 0, `nan` for negatives) that propagate through
the window statistics, which is modelled by the `LogVal` type. -/

namespace FilmDensitometry

/-- Python-level exceptions that the embedded routines can raise. -/
inductive PyErr
  | valueError
  | typeError
deriving DecidableEq, Repr

/-- Result of `np.log10` on a rational input: a real value for positive
input, `-inf` for zero, `nan` for negative input (numpy emits a warning but
does not raise). -/
inductive LogVal
  | val (q : ℚ)
  | ninf
  | nan
deriving DecidableEq, Repr

/-- Underlying rational of a `LogVal` (0 for the non-real markers; used only
on windows already checked to contain real values). -/
def LogVal.toQ : LogVal → ℚ
  | .val q => q
  | .ninf => 0
  | .nan => 0

/-- Model of `np.log10`, parametrised by the real logarithm `lg` on positive
rationals (`log10` itself is irrational-valued, so the embedding keeps it as
a parameter; every theorem holds for an arbitrary `lg`, in particular for
the true `log10`). -/
def npLog10 (lg : ℚ → ℚ) (x : ℚ) : LogVal :=
  if 0 < x then .val (lg x) else if x = 0 then .ninf else .nan

/-- A concrete strictly increasing stand-in for `log10` (with
`logStandIn 1 = 0`, as for `log10`), used to instantiate the
`lg`-parametric definitions at concrete inputs in witnesses whose
conclusions do not depend on the values of `lg`. -/
def logStandIn (x : ℚ) : ℚ := x - 1

/-- A computable function agreeing with the true `log10` at every power of
ten up to `10^10` (`log10 (10^k) = k`, an exact rational — and exact in
IEEE double as well).  Instantiating `lg` with it reproduces the source's
arithmetic exactly on inputs whose positive logExposures are all powers of
ten, since those are then the only points where `lg` is evaluated. -/
def log10Pow10 (x : ℚ) : ℚ :=
  if x = 1 then 0 else if x = 10 then 1 else if x = 100 then 2
  else if x = 1000 then 3 else if x = 10000 then 4 else if x = 100000 then 5
  else if x = 1000000 then 6 else if x = 10000000 then 7
  else if x = 100000000 then 8 else if x = 1000000000 then 9
  else if x = 10000000000 then 10 else 0

/-- The squared correlation coefficient of the simple linear regression of
`ys` on `xs`, as computed by `scipy.stats.linregress` (which sets `r = 0`
when either variance vanishes).  Tracking `r²` instead of `r` is faithful:
the source only ever compares `abs(r_value)`, and `|r| < |s| ↔ r² < s²`. -/
def r2Of (xs ys : List ℚ) : ℚ :=
  let n : ℚ := (xs.length : ℚ)
  let xm := xs.sum / n
  let ym := ys.sum / n
  let sxx := (xs.map (fun a => (a - xm) ^ 2)).sum
  let syy := (ys.map (fun a => (a - ym) ^ 2)).sum
  let sxy := (List.zipWith (fun a b => (a - xm) * (b - ym)) xs ys).sum
  if sxx = 0 ∨ syy = 0 then 0 else sxy ^ 2 / (sxx * syy)

/-- One window's regression, modelling `linregress(window_log_x, window_y)`.
`linregress` first raises `ValueError` when `np.amax(x) == np.amin(x)` and
`len(x) > 1`; with a `nan` present that comparison is false (`nan == nan`
is false), while `-inf == -inf` is true.  Any non-real value in the window
makes the computed `r` a `nan` (modelled as `none`), which the caller's
`abs(r_value) > abs(best_r_value)` comparison treats as never better. -/
def windowR2 (lxs : List LogVal) (ys : List ℚ) : Except PyErr (Option ℚ) :=
  if (LogVal.nan ∉ lxs) ∧ 1 < lxs.length ∧ (∀ l ∈ lxs, l = lxs.headD .nan) then
    .error .valueError
  else if LogVal.nan ∈ lxs ∨ LogVal.ninf ∈ lxs then .ok none
  else .ok (some (r2Of (lxs.map LogVal.toQ) ys))

/-- Stable insertion of a pair into a list sorted by first component:
an element is placed before the first strictly-larger-keyed element, after
equal keys. -/
def insertPair (p : ℚ × ℚ) : List (ℚ × ℚ) → List (ℚ × ℚ)
  | [] => [p]
  | q :: t => if p.1 ≤ q.1 then p :: q :: t else q :: insertPair p t

/-- Model of `sort_idx = np.argsort(x); x = x[sort_idx]; y = y[sort_idx]`:
the (x, y) pairs sorted ascending by x.  Numpy's default `argsort` order on
ties is algorithm-dependent; the model uses a stable insertion sort. -/
def sortPairs : List (ℚ × ℚ) → List (ℚ × ℚ)
  | [] => []
  | p :: t => insertPair p (sortPairs t)

/-- One iteration of the sliding-window loop (lines 31-41 of the source):
run the regression on window `i`, and update the running best when
`abs(r_value) > abs(best_r_value)` (equivalently, when `r²` exceeds the
best `r²` so far; a `nan` `r` never compares greater). -/
def scanStep (lxs : List LogVal) (xs ys : List ℚ) (w : ℕ)
    (acc : ℚ × Option (ℚ × ℚ × ℚ × ℚ)) (i : ℕ) :
    Except PyErr (ℚ × Option (ℚ × ℚ × ℚ × ℚ)) :=
  match windowR2 ((lxs.drop i).take w) ((ys.drop i).take w) with
  | .error e => .error e
  | .ok none => .ok acc
  | .ok (some r2) =>
      if acc.1 < r2 then
        .ok (r2, some (xs.getD i 0, ys.getD i 0,
                       xs.getD (i + w - 1) 0, ys.getD (i + w - 1) 0))
      else .ok acc

/-- The full sliding-window scan: fold `scanStep` over
`range(len(x) - window_size + 1)` starting from `best_r_value = 0`,
`best_points = None`, propagating a `ValueError` from the window where it
occurs. -/
def scanWindows (lxs : List LogVal) (xs ys : List ℚ) (w : ℕ) :
    Except PyErr (ℚ × Option (ℚ × ℚ × ℚ × ℚ)) :=
  (List.range (xs.length - w + 1)).foldlM (scanStep lxs xs ys w) (0, none)

/-- Embedding of `calculate_contrast_index(x_values, y_values, window_size)`:
guard on insufficient data, sort the pairs by x, take `log10` of the sorted
x values, scan the windows, and return the contrast index and boundary
points when the best window clears `abs(r) > 0.98` (compared as
`r² > 0.98²`).  Returns `.ok none` for the source's `(None, None)`. -/
def calculate_contrast_index (lg : ℚ → ℚ) (xv yv : List ℚ) (w : ℕ) :
    Except PyErr (Option (ℚ × (ℚ × ℚ × ℚ × ℚ))) :=
  if xv.length < w ∨ yv.length < w then .ok none
  else
    let pairs := sortPairs (xv.zip yv)
    let xs := pairs.map Prod.fst
    let ys := pairs.map Prod.snd
    let lxs := xs.map (npLog10 lg)
    match scanWindows lxs xs ys w with
    | .error e => .error e
    | .ok (bestR2, bestPts) =>
        match bestPts with
        | some pts =>
            if (49 / 50 : ℚ) ^ 2 < bestR2 then
              .ok (some ((pts.2.2.2 - pts.2.1) / (pts.2.2.1 - pts.1), pts))
            else .ok none
        | none => .ok none

/-- Model of `np.abs(ys - t).argmin()`: the first index at which the
absolute difference to `t` attains its minimum (`none` on an empty array,
where numpy raises). -/
def argminAbs (ys : List ℚ) (t : ℚ) : Option ℕ :=
  let ds := ys.map (fun y => |y - t|)
  if ds = [] then none
  else some (ds.findIdx (fun d => decide (∀ e ∈ ds, d ≤ e)))

/-- Embedding of `calculate_average_gradient(x_values, y_values, dmin)`:
nearest samples to `dmin + 0.1` and `dmin + 0.6` over the given (unsorted)
order; absence when the two indices coincide. -/
def calculate_average_gradient (xs ys : List ℚ) (dmin : ℚ) : Option ℚ :=
  match argminAbs ys (dmin + 1 / 10), argminAbs ys (dmin + 6 / 10) with
  | some i1, some i2 =>
      if i1 = i2 then none
      else some ((ys.getD i2 0 - ys.getD i1 0) / (xs.getD i2 0 - xs.getD i1 0))
  | _, _ => none

/-- Model of `np.where(cond(y))[0]`: the list of indices of `ys` whose
element satisfies `p`, in increasing order. -/
def idxWhere (p : ℚ → Prop) [DecidablePred p] (ys : List ℚ) : List ℕ :=
  (List.range ys.length).filter (fun i => decide (p (ys.getD i 0)))

/-- Embedding of the speed-point computation of `plot_densitometry`
(lines 103-119): partition indices by `density ≥ target`, and when both
partitions are non-empty, linearly interpolate between the last index below
and the first index above (in logExposure, not in its logarithm), guarding
the `x2 == x1` case; otherwise fall back to the nearest sample. -/
def log_e_at_target (xs ys : List ℚ) (target : ℚ) : Option ℚ :=
  let above := idxWhere (fun y => target ≤ y) ys
  let below := idxWhere (fun y => y < target) ys
  if above ≠ [] ∧ below ≠ [] then
    let ia := above.headD 0
    let ib := below.getLastD 0
    let x1 := xs.getD ib 0
    let y1 := ys.getD ib 0
    let x2 := xs.getD ia 0
    let y2 := ys.getD ia 0
    some (if x2 ≠ x1 then x1 + (target - y1) * (x2 - x1) / (y2 - y1) else x1)
  else (argminAbs ys target).map (fun i => xs.getD i 0)

/-- Model of Python's `min(y_values)` (raises on an empty sequence, hence
`Option`). -/
def pyMin : List ℚ → Option ℚ
  | [] => none
  | x :: t => some (t.foldl min x)

/-- Embedding of lines 97-100 of the source: `if dmin:` is Python float
truthiness, so a supplied `dmin` of exactly 0 falls back to the data
minimum `min(y_values)`. -/
def min_density_of (dmin : ℚ) (ys : List ℚ) : Option ℚ :=
  if dmin ≠ 0 then some dmin else pyMin ys

/-- Embedding of lines 82-87 of `plot_densitometry` (the spec's
`buildCurve`): truncate both series to the shorter length and pair
`logExposureRef - stepWedge[i]` with `film[i]`, in input order. -/
def buildCurve (logE : ℚ) (sw film : List ℚ) : List ℚ × List ℚ :=
  let n := min sw.length film.length
  ((sw.take n).map (fun d => logE - d), film.take n)

/-- Outcome of the gradient section of `plot_densitometry`
(lines 124-153): whether the average-gradient summary line was printed
(`if avg_grad:` — float truthiness), and the `grad_status` label. -/
structure GradReport where
  gradientPrinted : Bool
  status : String
  chartShown : Bool
deriving DecidableEq, Repr

/-- Embedding of lines 124-153 and 202 of `plot_densitometry`: compute the
average gradient; when it is `None`, the unconditional comparison
`avg_grad < min_grad` on line 148 raises `TypeError` (Python 3 forbids
`None < float`), so `plt.show()` on line 202 is never reached; otherwise
the status label is computed and the chart is shown. -/
def gradientSection (xs ys : List ℚ) (minDensity : ℚ) :
    Except PyErr GradReport :=
  match calculate_average_gradient xs ys minDensity with
  | none => .error .typeError
  | some g =>
      .ok { gradientPrinted := decide (g ≠ 0),
            status := if g < 62 / 100 then "Too Low"
                      else if 70 / 100 < g then "Too High" else "OK",
            chartShown := true }

/-- Spec-side record of one window of the scan: its `r²` and its boundary
samples. -/
structure WinInfo where
  r2 : ℚ
  xa : ℚ
  ya : ℚ
  xb : ℚ
  yb : ℚ
deriving DecidableEq, Repr

/-- Spec-side list of all contiguous windows of size `w` (slide by 1) of
the sorted pairs, each with its regression `r²` and boundary samples. -/
def windowInfos (lg : ℚ → ℚ) (pairs : List (ℚ × ℚ)) (w : ℕ) : List WinInfo :=
  (List.range (pairs.length - w + 1)).map (fun i =>
    { r2 := r2Of ((((pairs.map Prod.fst).drop i).take w).map lg)
              (((pairs.map Prod.snd).drop i).take w),
      xa := (pairs.map Prod.fst).getD i 0,
      ya := (pairs.map Prod.snd).getD i 0,
      xb := (pairs.map Prod.fst).getD (i + w - 1) 0,
      yb := (pairs.map Prod.snd).getD (i + w - 1) 0 })

/-- Pure accumulator step corresponding to `scanStep` when no exceptional
window occurs: keep the window with the strictly larger `r²`. -/
def pickStep (acc : ℚ × Option (ℚ × ℚ × ℚ × ℚ)) (u : WinInfo) :
    ℚ × Option (ℚ × ℚ × ℚ × ℚ) :=
  if acc.1 < u.r2 then (u.r2, some (u.xa, u.ya, u.xb, u.yb)) else acc

/-- A list holds at least two distinct values (negation of the all-identical
condition that makes `linregress` raise). -/
def hasTwoValues (l : List ℚ) : Prop := ∃ a ∈ l, a ≠ l.headD 0

instance (l : List ℚ) : Decidable (hasTwoValues l) := by
  unfold hasTwoValues; infer_instance

/-- The marker `LogVal.nan` is distinct from every real value. -/
theorem nan_ne_val (q : ℚ) : LogVal.nan ≠ LogVal.val q := fun h => LogVal.noConfusion h

/-- The marker `LogVal.ninf` is distinct from every real value. -/
theorem ninf_ne_val (q : ℚ) : LogVal.ninf ≠ LogVal.val q := fun h => LogVal.noConfusion h

/-- A real value is distinct from `LogVal.nan`. -/
theorem val_ne_nan (q : ℚ) : LogVal.val q ≠ LogVal.nan := fun h => LogVal.noConfusion h

/-- A real value is distinct from `LogVal.ninf`. -/
theorem val_ne_ninf (q : ℚ) : LogVal.val q ≠ LogVal.ninf := fun h => LogVal.noConfusion h

/-- Every non-empty list of rationals has a least element. -/
theorem exists_min_mem (l : List ℚ) (h : l ≠ []) : ∃ m ∈ l, ∀ e ∈ l, m ≤ e := by
  induction l with
  | nil => exact absurd rfl h
  | cons x t ih =>
    rcases eq_or_ne t [] with rfl | ht
    · exact ⟨x, List.mem_cons_self x [], by intro e he; simp at he; simp [he]⟩
    · obtain ⟨m, hm, hle⟩ := ih ht
      rcases le_total x m with hxm | hmx
      · refine ⟨x, List.mem_cons_self x t, ?_⟩
        intro e he
        rcases List.mem_cons.mp he with rfl | he
        · exact le_refl e
        · exact le_trans hxm (hle e he)
      · refine ⟨m, List.mem_cons_of_mem x hm, ?_⟩
        intro e he
        rcases List.mem_cons.mp he with rfl | he
        · exact hmx
        · exact hle e he

/-- The fold of `min` over a list starting at `x` lands in `x :: t`. -/
theorem foldl_min_mem (t : List ℚ) : ∀ x : ℚ, t.foldl min x ∈ x :: t := by
  induction t with
  | nil => intro x; exact List.mem_cons_self x []
  | cons a t ih =>
    intro x
    rw [List.foldl_cons]
    rcases List.mem_cons.mp (ih (min x a)) with h | h
    · rw [h]
      rcases min_choice x a with h1 | h1 <;> rw [h1]
      · exact List.mem_cons_self _ _
      · exact List.mem_cons_of_mem _ (List.mem_cons_self _ _)
    · exact List.mem_cons_of_mem _ (List.mem_cons_of_mem _ h)

/-- The fold of `min` over a list starting at `x` bounds every element of
`x :: t` from below. -/
theorem foldl_min_le (t : List ℚ) : ∀ x : ℚ, ∀ y ∈ x :: t, t.foldl min x ≤ y := by
  induction t with
  | nil => intro x y hy; simp at hy; simp [hy]
  | cons a t ih =>
    intro x y hy
    rw [List.foldl_cons]
    rcases List.mem_cons.mp hy with h | hy
    · rw [h]
      exact le_trans (ih (min x a) (min x a) (List.mem_cons_self _ _))
        (min_le_left x a)
    · rcases List.mem_cons.mp hy with h | hy
      · rw [h]
        exact le_trans (ih (min x a) (min x a) (List.mem_cons_self _ _))
          (min_le_right x a)
      · exact ih (min x a) y (List.mem_cons_of_mem _ hy)

/-- Index membership in `idxWhere`: exactly the in-range indices whose
element satisfies the predicate. -/
theorem mem_idxWhere {p : ℚ → Prop} [DecidablePred p] {ys : List ℚ} {i : ℕ} :
    i ∈ idxWhere p ys ↔ i < ys.length ∧ p (ys.getD i 0) := by
  simp [idxWhere, List.mem_filter, List.mem_range]

/-- First-minimum characterization of `argminAbs` (the model of
`np.abs(ys - t).argmin()`): on a non-empty list it returns an in-range
index whose distance to the target is minimal, and every earlier index has
a strictly larger distance. -/
theorem argminAbs_spec (ys : List ℚ) (t : ℚ) (h : ys ≠ []) :
    ∃ i, argminAbs ys t = some i ∧ i < ys.length ∧
      (∀ j < ys.length, |ys.getD i 0 - t| ≤ |ys.getD j 0 - t|) ∧
      (∀ j < i, |ys.getD i 0 - t| < |ys.getD j 0 - t|) := by
  have hdsne : ys.map (fun y => |y - t|) ≠ [] := by
    simpa [List.map_eq_nil_iff] using h
  obtain ⟨m, hm, hle⟩ := exists_min_mem (ys.map (fun y => |y - t|)) hdsne
  have hex : ∃ x ∈ ys.map (fun y => |y - t|),
      (fun d => decide (∀ e ∈ ys.map (fun y => |y - t|), d ≤ e)) x = true :=
    ⟨m, hm, by simpa using hle⟩
  have hfi := List.findIdx_lt_length_of_exists hex
  have hlen : (ys.map (fun y => |y - t|)).length = ys.length :=
    List.length_map ys _
  have hiy : (ys.map (fun y => |y - t|)).findIdx
      (fun d => decide (∀ e ∈ ys.map (fun y => |y - t|), d ≤ e)) < ys.length :=
    hlen ▸ hfi
  have hgd : ∀ j, j < ys.length →
      (ys.map (fun y => |y - t|)).getD j 0 = |ys.getD j 0 - t| := by
    intro j hj
    rw [List.getD_eq_getElem?_getD, List.getElem?_map,
      List.getD_eq_getElem?_getD, List.getElem?_eq_getElem hj]
    rfl
  have hple : ∀ e ∈ ys.map (fun y => |y - t|),
      (ys.map (fun y => |y - t|)).getD
        ((ys.map (fun y => |y - t|)).findIdx
          (fun d => decide (∀ e ∈ ys.map (fun y => |y - t|), d ≤ e))) 0 ≤ e := by
    have h1 := List.findIdx_getElem (w := hfi)
    rw [List.getD_eq_getElem _ _ hfi]
    simpa using h1
  refine ⟨(ys.map (fun y => |y - t|)).findIdx
      (fun d => decide (∀ e ∈ ys.map (fun y => |y - t|), d ≤ e)), ?_, hiy, ?_, ?_⟩
  · simp only [argminAbs]
    rw [if_neg hdsne]
  · intro j hj
    have hjd : j < (ys.map (fun y => |y - t|)).length := hlen ▸ hj
    have hmem : (ys.map (fun y => |y - t|)).getD j 0 ∈ ys.map (fun y => |y - t|) := by
      rw [List.getD_eq_getElem _ _ hjd]
      exact List.getElem_mem hjd
    have := hple _ hmem
    rw [hgd _ hiy, hgd _ hj] at this
    exact this
  · intro j hj
    have hjd : j < (ys.map (fun y => |y - t|)).length := lt_trans hj hfi
    have hjy : j < ys.length := hlen ▸ hjd
    have h2 := List.not_of_lt_findIdx hj
    have h3 : ¬ ∀ e ∈ ys.map (fun y => |y - t|),
        (ys.map (fun y => |y - t|)).getD j 0 ≤ e := by
      rw [List.getD_eq_getElem _ _ hjd]
      simpa using h2
    push_neg at h3
    obtain ⟨e, he, helt⟩ := h3
    have h4 := hple e he
    rw [hgd _ hiy] at h4
    rw [hgd _ hjy] at helt
    exact lt_of_le_of_lt h4 helt

/-- C7: `calculate_average_gradient` picks `i1` nearest (by absolute
difference, first index on ties, over the unsorted truncated input order)
to `dmin + 0.1` and `i2` nearest to `dmin + 0.6`, returns absence when
`i1 = i2`, and otherwise the slope
`(density[i2] - density[i1]) / (logExposure[i2] - logExposure[i1])`. -/
theorem c7_average_gradient_nearest (xs ys : List ℚ) (dmin : ℚ) (h : ys ≠ []) :
    ∃ i1 i2,
      argminAbs ys (dmin + 1 / 10) = some i1 ∧
      argminAbs ys (dmin + 6 / 10) = some i2 ∧
      i1 < ys.length ∧ i2 < ys.length ∧
      (∀ j < ys.length, |ys.getD i1 0 - (dmin + 1 / 10)| ≤ |ys.getD j 0 - (dmin + 1 / 10)|) ∧
      (∀ j < i1, |ys.getD i1 0 - (dmin + 1 / 10)| < |ys.getD j 0 - (dmin + 1 / 10)|) ∧
      (∀ j < ys.length, |ys.getD i2 0 - (dmin + 6 / 10)| ≤ |ys.getD j 0 - (dmin + 6 / 10)|) ∧
      (∀ j < i2, |ys.getD i2 0 - (dmin + 6 / 10)| < |ys.getD j 0 - (dmin + 6 / 10)|) ∧
      calculate_average_gradient xs ys dmin =
        (if i1 = i2 then none
         else some ((ys.getD i2 0 - ys.getD i1 0) / (xs.getD i2 0 - xs.getD i1 0))) := by
  obtain ⟨i1, he1, hl1, hm1, hf1⟩ := argminAbs_spec ys (dmin + 1 / 10) h
  obtain ⟨i2, he2, hl2, hm2, hf2⟩ := argminAbs_spec ys (dmin + 6 / 10) h
  refine ⟨i1, i2, he1, he2, hl1, hl2, hm1, hf1, hm2, hf2, ?_⟩
  unfold calculate_average_gradient
  rw [he1, he2]

/-- Witness for `c7_average_gradient_nearest` at
`xs = [1, 2, 3]`, `ys = [0, 0.5, 1]`, `dmin = 0` (so `i1 = 0`, `i2 = 1`,
gradient `1/2`). -/
theorem c7_average_gradient_nearest_witness :
    (([0, 1 / 2, 1] : List ℚ) ≠ []) ∧
    (∃ i1 i2,
      argminAbs [0, 1 / 2, 1] ((0 : ℚ) + 1 / 10) = some i1 ∧
      argminAbs [0, 1 / 2, 1] ((0 : ℚ) + 6 / 10) = some i2 ∧
      i1 < ([0, 1 / 2, 1] : List ℚ).length ∧ i2 < ([0, 1 / 2, 1] : List ℚ).length ∧
      (∀ j < ([0, 1 / 2, 1] : List ℚ).length,
        |([0, 1 / 2, 1] : List ℚ).getD i1 0 - ((0 : ℚ) + 1 / 10)| ≤
          |([0, 1 / 2, 1] : List ℚ).getD j 0 - ((0 : ℚ) + 1 / 10)|) ∧
      (∀ j < i1, |([0, 1 / 2, 1] : List ℚ).getD i1 0 - ((0 : ℚ) + 1 / 10)| <
          |([0, 1 / 2, 1] : List ℚ).getD j 0 - ((0 : ℚ) + 1 / 10)|) ∧
      (∀ j < ([0, 1 / 2, 1] : List ℚ).length,
        |([0, 1 / 2, 1] : List ℚ).getD i2 0 - ((0 : ℚ) + 6 / 10)| ≤
          |([0, 1 / 2, 1] : List ℚ).getD j 0 - ((0 : ℚ) + 6 / 10)|) ∧
      (∀ j < i2, |([0, 1 / 2, 1] : List ℚ).getD i2 0 - ((0 : ℚ) + 6 / 10)| <
          |([0, 1 / 2, 1] : List ℚ).getD j 0 - ((0 : ℚ) + 6 / 10)|) ∧
      calculate_average_gradient [1, 2, 3] [0, 1 / 2, 1] 0 =
        (if i1 = i2 then none
         else some ((([0, 1 / 2, 1] : List ℚ).getD i2 0 - ([0, 1 / 2, 1] : List ℚ).getD i1 0) /
           (([1, 2, 3] : List ℚ).getD i2 0 - ([1, 2, 3] : List ℚ).getD i1 0)))) :=
  ⟨by simp, c7_average_gradient_nearest [1, 2, 3] [0, 1 / 2, 1] 0 (by simp)⟩

/-- C4: for every sample sequence shorter than `windowSize` (in either
coordinate list, as the source checks both), `calculate_contrast_index`
returns the absence value `(None, None)` — an `.ok none`, never an
exception — for every choice of the log function. -/
theorem c4_short_input_absence (lg : ℚ → ℚ) (xv yv : List ℚ) (w : ℕ)
    (h : xv.length < w ∨ yv.length < w) :
    calculate_contrast_index lg xv yv w = .ok none := by
  unfold calculate_contrast_index
  rw [if_pos h]

/-- Witness for `c4_short_input_absence` at a three-sample input and
window size 11. -/
theorem c4_short_input_absence_witness :
    (([1, 2, 3] : List ℚ).length < 11 ∨ ([1, 2, 3] : List ℚ).length < 11) ∧
    calculate_contrast_index logStandIn [1, 2, 3] [1, 2, 3] 11 = .ok none :=
  ⟨Or.inl (by norm_num),
   c4_short_input_absence logStandIn [1, 2, 3] [1, 2, 3] 11 (Or.inl (by norm_num))⟩

/-- C8: `buildCurve` truncates both series to the shorter length and maps
index `i` to `(logExposureRef - stepWedge[i], film[i])`, preserving input
order (no sorting at this stage). -/
theorem c8_buildCurve_pointwise (logE : ℚ) (sw film : List ℚ) :
    (buildCurve logE sw film).1.length = min sw.length film.length ∧
    (buildCurve logE sw film).2.length = min sw.length film.length ∧
    ∀ i < min sw.length film.length,
      (buildCurve logE sw film).1.getD i 0 = logE - sw.getD i 0 ∧
      (buildCurve logE sw film).2.getD i 0 = film.getD i 0 := by
  refine ⟨?_, ?_, ?_⟩
  · simp [buildCurve]
  · simp [buildCurve]
  · intro i hi
    have hi1 : i < sw.length := lt_of_lt_of_le hi (min_le_left _ _)
    have hi2 : i < film.length := lt_of_lt_of_le hi (min_le_right _ _)
    constructor
    · simp [buildCurve, List.getD_eq_getElem?_getD, List.getElem?_map,
        List.getElem?_take, hi, List.getElem?_eq_getElem, hi1]
    · simp [buildCurve, List.getD_eq_getElem?_getD,
        List.getElem?_take, hi, List.getElem?_eq_getElem, hi2]

/-- Witness for `c8_buildCurve_pointwise` at `logE = 5`,
`sw = [1, 2, 3]`, `film = [4, 5]` (truncation length 2). -/
theorem c8_buildCurve_pointwise_witness :
    (buildCurve 5 [1, 2, 3] [4, 5]).1.length =
        min ([1, 2, 3] : List ℚ).length ([4, 5] : List ℚ).length ∧
    (buildCurve 5 [1, 2, 3] [4, 5]).2.length =
        min ([1, 2, 3] : List ℚ).length ([4, 5] : List ℚ).length ∧
    ∀ i < min ([1, 2, 3] : List ℚ).length ([4, 5] : List ℚ).length,
      (buildCurve 5 [1, 2, 3] [4, 5]).1.getD i 0 = 5 - ([1, 2, 3] : List ℚ).getD i 0 ∧
      (buildCurve 5 [1, 2, 3] [4, 5]).2.getD i 0 = ([4, 5] : List ℚ).getD i 0 :=
  c8_buildCurve_pointwise 5 [1, 2, 3] [4, 5]

/-- C9: with `dmin` supplied as exactly 0, `if dmin:` is false (Python
float truthiness), so the minimum density silently falls back to the data
minimum `min(y_values)`; any nonzero `dmin` is used as given. -/
theorem c9_dmin_zero_uses_data_min (ys : List ℚ) (h : ys ≠ []) :
    min_density_of 0 ys = pyMin ys ∧
    (∀ d : ℚ, d ≠ 0 → min_density_of d ys = some d) ∧
    ∃ m, pyMin ys = some m ∧ m ∈ ys ∧ ∀ y ∈ ys, m ≤ y := by
  refine ⟨by simp [min_density_of], fun d hd => by simp [min_density_of, hd], ?_⟩
  match ys, h with
  | x :: t, _ =>
    exact ⟨t.foldl min x, rfl, foldl_min_mem t x, foldl_min_le t x⟩

/-- Witness for `c9_dmin_zero_uses_data_min` at `ys = [3, 1]`: the value
used is the data minimum 1, not the supplied 0. -/
theorem c9_dmin_zero_uses_data_min_witness :
    (([3, 1] : List ℚ) ≠ []) ∧
    (min_density_of 0 [3, 1] = pyMin [3, 1] ∧
     (∀ d : ℚ, d ≠ 0 → min_density_of d [3, 1] = some d) ∧
     ∃ m, pyMin ([3, 1] : List ℚ) = some m ∧ m ∈ ([3, 1] : List ℚ) ∧
       ∀ y ∈ ([3, 1] : List ℚ), m ≤ y) :=
  ⟨by simp, c9_dmin_zero_uses_data_min [3, 1] (by simp)⟩

/-- C10: in the interpolated branch (both index partitions non-empty), the
divisor `y2 - y1` of the interpolation formula is strictly positive — the
above-sample has density `≥ target`, the below-sample `< target` — so the
division cannot be by zero (the source's `x2 != x1` guard is not what
protects it). -/
theorem c10_interp_divisor_pos (ys : List ℚ) (t : ℚ)
    (ha : idxWhere (fun y => t ≤ y) ys ≠ [])
    (hb : idxWhere (fun y => y < t) ys ≠ []) :
    0 < ys.getD ((idxWhere (fun y => t ≤ y) ys).headD 0) 0 -
        ys.getD ((idxWhere (fun y => y < t) ys).getLastD 0) 0 ∧
    ys.getD ((idxWhere (fun y => t ≤ y) ys).headD 0) 0 -
        ys.getD ((idxWhere (fun y => y < t) ys).getLastD 0) 0 ≠ 0 := by
  have hmema : (idxWhere (fun y => t ≤ y) ys).headD 0 ∈ idxWhere (fun y => t ≤ y) ys := by
    rw [List.headD_eq_head?, List.head?_eq_head ha]
    exact List.head_mem ha
  have hmemb : (idxWhere (fun y => y < t) ys).getLastD 0 ∈ idxWhere (fun y => y < t) ys := by
    rw [List.getLastD_eq_getLast?, List.getLast?_eq_getLast _ hb]
    exact List.getLast_mem hb
  have h2 := (mem_idxWhere.mp hmema).2
  have h1 := (mem_idxWhere.mp hmemb).2
  constructor
  · linarith
  · intro heq
    linarith

/-- Witness for `c10_interp_divisor_pos` at `ys = [0, 0.2]`,
`target = 0.1`. -/
theorem c10_interp_divisor_pos_witness :
    (idxWhere (fun y => (1 : ℚ) / 10 ≤ y) [0, 2 / 10] ≠ []) ∧
    (idxWhere (fun y => y < (1 : ℚ) / 10) [0, 2 / 10] ≠ []) ∧
    (0 < ([0, 2 / 10] : List ℚ).getD
          ((idxWhere (fun y => (1 : ℚ) / 10 ≤ y) [0, 2 / 10]).headD 0) 0 -
        ([0, 2 / 10] : List ℚ).getD
          ((idxWhere (fun y => y < (1 : ℚ) / 10) [0, 2 / 10]).getLastD 0) 0 ∧
     ([0, 2 / 10] : List ℚ).getD
          ((idxWhere (fun y => (1 : ℚ) / 10 ≤ y) [0, 2 / 10]).headD 0) 0 -
        ([0, 2 / 10] : List ℚ).getD
          ((idxWhere (fun y => y < (1 : ℚ) / 10) [0, 2 / 10]).getLastD 0) 0 ≠ 0) :=
  ⟨by norm_num [idxWhere, List.range, List.range.loop, List.filter],
   by norm_num [idxWhere, List.range, List.range.loop, List.filter],
   c10_interp_divisor_pos [0, 2 / 10] (1 / 10)
     (by norm_num [idxWhere, List.range, List.range.loop, List.filter])
     (by norm_num [idxWhere, List.range, List.range.loop, List.filter])⟩

/-- C2 counterexample: on the two samples `(1, 0.0)` and `(10, 0.2)` with
target density 0.1, the source's interpolation returns `5.5`, which is not
`10^0.5 ≈ 3.162` — the interpolation is linear in logExposure itself, not
in its logarithm, so the claimed value is wrong. -/
theorem c2_not_log_midpoint :
    log_e_at_target [1, 10] [0, 2 / 10] (1 / 10) = some (11 / 2) ∧
    (11 / 2 : ℝ) ≠ Real.sqrt 10 := by
  constructor
  · norm_num [log_e_at_target, idxWhere, argminAbs, List.range, List.range.loop,
      List.filter]
  · intro h
    have h10 : Real.sqrt 10 ^ 2 = 10 := Real.sq_sqrt (by norm_num)
    rw [← h] at h10
    norm_num at h10

/-- C2 as amended: the interpolated speed point on samples `(1, 0.0)` and
`(10, 0.2)` with `minDensity = 0` (so target `0.1`) is
`x1 + (target - y1)(x2 - x1)/(y2 - y1) = 1 + 0.1·9/0.2 = 5.5`. -/
theorem c2_interpolation_value :
    min_density_of 0 [0, 2 / 10] = some 0 ∧
    log_e_at_target [1, 10] [0, 2 / 10] (0 + 1 / 10) = some (11 / 2) := by
  constructor
  · norm_num [min_density_of, pyMin, min_def]
  · norm_num [log_e_at_target, idxWhere, argminAbs, List.range, List.range.loop,
      List.filter]

/-- Inserting a pair adds one to the length. -/
theorem length_insertPair (p : ℚ × ℚ) (l : List (ℚ × ℚ)) :
    (insertPair p l).length = l.length + 1 := by
  induction l with
  | nil => rfl
  | cons q t ih =>
    unfold insertPair
    by_cases h : p.1 ≤ q.1
    · rw [if_pos h]
      rfl
    · rw [if_neg h]
      simp [ih]

/-- Membership in an insertion. -/
theorem mem_insertPair {x p : ℚ × ℚ} {l : List (ℚ × ℚ)} :
    x ∈ insertPair p l ↔ x = p ∨ x ∈ l := by
  induction l with
  | nil => simp [insertPair]
  | cons q t ih =>
    unfold insertPair
    by_cases h : p.1 ≤ q.1
    · rw [if_pos h]
      simp [List.mem_cons]
    · rw [if_neg h]
      simp [List.mem_cons, ih]
      tauto

/-- Sorting preserves length. -/
theorem length_sortPairs (l : List (ℚ × ℚ)) : (sortPairs l).length = l.length := by
  induction l with
  | nil => rfl
  | cons p t ih => simp [sortPairs, length_insertPair, ih]

/-- Sorting preserves membership. -/
theorem mem_sortPairs {x : ℚ × ℚ} {l : List (ℚ × ℚ)} : x ∈ sortPairs l ↔ x ∈ l := by
  induction l with
  | nil => simp [sortPairs]
  | cons p t ih => simp [sortPairs, mem_insertPair, ih, List.mem_cons]

/-- C3 as amended: a nonpositive logExposure does not raise — `np.log10`
produces a non-real value, the window containing it gets a `nan`
correlation and is never selected.  With exactly `windowSize` samples, one
of them negative, the single window is tainted and the scan completes
normally with the absence result `(None, None)`, for every log model
`lg`. -/
theorem c3_nonpositive_window_skipped (lg : ℚ → ℚ) (xv yv : List ℚ)
    (hx : xv.length = 11) (hy : yv.length = 11) (hneg : ∃ x ∈ xv, x < 0) :
    calculate_contrast_index lg xv yv 11 = .ok none := by
  obtain ⟨x0, hx0, hx0neg⟩ := hneg
  have hzlen : (xv.zip yv).length = 11 := by
    rw [List.length_zip, hx, hy]
    simp
  have hplen : (sortPairs (xv.zip yv)).length = 11 := by
    rw [length_sortPairs, hzlen]
  have hxslen : ((sortPairs (xv.zip yv)).map Prod.fst).length = 11 := by
    rw [List.length_map, hplen]
  have hx0s : x0 ∈ (sortPairs (xv.zip yv)).map Prod.fst := by
    have h1 : x0 ∈ (xv.zip yv).map Prod.fst := by
      rw [List.map_fst_zip xv yv (by rw [hx, hy])]
      exact hx0
    obtain ⟨p, hp, hpx⟩ := List.mem_map.mp h1
    exact List.mem_map.mpr ⟨p, mem_sortPairs.mpr hp, hpx⟩
  have hnan : LogVal.nan ∈ ((sortPairs (xv.zip yv)).map Prod.fst).map (npLog10 lg) := by
    refine List.mem_map.mpr ⟨x0, hx0s, ?_⟩
    unfold npLog10
    rw [if_neg (by linarith), if_neg (by linarith)]
  have hlxslen : (((sortPairs (xv.zip yv)).map Prod.fst).map (npLog10 lg)).length = 11 := by
    rw [List.length_map, hxslen]
  have hstep : scanStep (((sortPairs (xv.zip yv)).map Prod.fst).map (npLog10 lg))
      ((sortPairs (xv.zip yv)).map Prod.fst) ((sortPairs (xv.zip yv)).map Prod.snd) 11
      (0, none) 0 = .ok (0, none) := by
    unfold scanStep
    rw [List.drop_zero, List.drop_zero,
      List.take_of_length_le (le_of_eq hlxslen)]
    unfold windowR2
    rw [if_neg (fun hc => hc.1 hnan), if_pos (Or.inl hnan)]
  have hscan : scanWindows (((sortPairs (xv.zip yv)).map Prod.fst).map (npLog10 lg))
      ((sortPairs (xv.zip yv)).map Prod.fst) ((sortPairs (xv.zip yv)).map Prod.snd) 11
      = .ok (0, none) := by
    unfold scanWindows
    rw [hxslen]
    show List.foldlM _ (0, none) [0] = _
    rw [List.foldlM_cons, hstep]
    simp
  unfold calculate_contrast_index
  rw [if_neg (by rw [hx, hy]; omega)]
  simp only
  rw [hscan]

/-- Witness for `c3_nonpositive_window_skipped` at an 11-sample input whose
first logExposure is −1. -/
theorem c3_nonpositive_window_skipped_witness :
    (([-1, 1, 2, 3, 4, 5, 6, 7, 8, 9, 10] : List ℚ).length = 11) ∧
    (([5, 1 / 10, 2 / 10, 3 / 10, 4 / 10, 5 / 10, 6 / 10, 7 / 10, 8 / 10, 9 / 10, 1] :
        List ℚ).length = 11) ∧
    (∃ x ∈ ([-1, 1, 2, 3, 4, 5, 6, 7, 8, 9, 10] : List ℚ), x < 0) ∧
    calculate_contrast_index logStandIn [-1, 1, 2, 3, 4, 5, 6, 7, 8, 9, 10]
      [5, 1 / 10, 2 / 10, 3 / 10, 4 / 10, 5 / 10, 6 / 10, 7 / 10, 8 / 10, 9 / 10, 1] 11
      = .ok none :=
  ⟨by simp, by simp, ⟨-1, by norm_num⟩,
   c3_nonpositive_window_skipped logStandIn
     [-1, 1, 2, 3, 4, 5, 6, 7, 8, 9, 10]
     [5, 1 / 10, 2 / 10, 3 / 10, 4 / 10, 5 / 10, 6 / 10, 7 / 10, 8 / 10, 9 / 10, 1]
     (by simp) (by simp) ⟨-1, by norm_num⟩⟩

/-- On every power of ten up to `10^10`, `log10Pow10` takes the exact value
of the true base-10 logarithm. -/
theorem log10Pow10_pow : ∀ k : ℕ, k ≤ 10 → log10Pow10 ((10 : ℚ) ^ k) = (k : ℚ) := by
  intro k hk
  interval_cases k <;> norm_num [log10Pow10]

/-- C3 counterexample: an input containing a nonpositive logExposure on
which the regression search not only completes without any exception but
even returns a contrast index — refuting both "fails with a DomainError"
and "at most a degraded output without a contrast index".  The eleven
positive logExposures are the powers of ten `1, 10, …, 10^10` and the
densities rise by 0.1 per decade, so the clean window is exactly linear in
`log10` and its `r` is exactly 1 under the true logarithm; `log10Pow10`
agrees with the true `log10` at every point where it is evaluated here
(`log10Pow10_pow`), so this equality reproduces the source's computation
at this input.  The window containing −1 gets a `nan` correlation and is
skipped. -/
theorem c3_counterexample_completes_with_index :
    ((-1 : ℚ) ∈ ([-1, 1, 10, 100, 1000, 10000, 100000, 1000000, 10000000,
        100000000, 1000000000, 10000000000] : List ℚ) ∧ (-1 : ℚ) ≤ 0) ∧
    calculate_contrast_index log10Pow10
      [-1, 1, 10, 100, 1000, 10000, 100000, 1000000, 10000000,
        100000000, 1000000000, 10000000000]
      [5, 1 / 10, 2 / 10, 3 / 10, 4 / 10, 5 / 10, 6 / 10, 7 / 10, 8 / 10, 9 / 10, 1, 11 / 10] 11
      = .ok (some (1 / 9999999999, (1, 1 / 10, 10000000000, 11 / 10))) := by
  refine ⟨⟨by norm_num, by norm_num⟩, ?_⟩
  norm_num [calculate_contrast_index, scanWindows, scanStep, windowR2, sortPairs,
    insertPair, npLog10, log10Pow10, List.range, List.range.loop, List.zip,
    List.zipWith, List.foldlM, r2Of, LogVal.toQ, Bool.cond_decide, List.cons_ne_nil,
    ne_eq, nan_ne_val, ninf_ne_val, val_ne_nan, val_ne_ninf,
    Bind.bind, Except.bind, Except.instMonad, Except.pure]

/-- C1 (code bug): on an input where the two nearest-density indices
coincide, `calculate_average_gradient` returns `None`, and the summary
section then evaluates `avg_grad < min_grad` with `avg_grad = None`
(line 148), raising `TypeError` before `plt.show()` — no chart is
produced, contradicting both the claim and the source's own `None`
handling a few lines earlier. -/
theorem c1_gradient_none_raises_before_chart :
    calculate_average_gradient [1, 2] [0, 5] 0 = none ∧
    gradientSection [1, 2] [0, 5] 0 = .error .typeError := by
  constructor
  · norm_num [calculate_average_gradient, argminAbs, List.findIdx, List.findIdx.go,
      Bool.cond_decide, abs_of_nonneg, abs_of_nonpos, List.cons_ne_nil, ne_eq]
  · norm_num [gradientSection, calculate_average_gradient, argminAbs, List.findIdx,
      List.findIdx.go, Bool.cond_decide, abs_of_nonneg, abs_of_nonpos,
      List.cons_ne_nil, ne_eq]

/-- The start value bounds a `max`-fold from below. -/
theorem le_foldl_max (l : List ℚ) : ∀ b : ℚ, b ≤ l.foldl max b := by
  induction l with
  | nil => intro b; exact le_refl b
  | cons r t ih =>
    intro b
    rw [List.foldl_cons]
    exact le_trans (le_max_left b r) (ih (max b r))

/-- Every list element bounds a `max`-fold from below. -/
theorem mem_le_foldl_max (l : List ℚ) : ∀ b : ℚ, ∀ x ∈ l, x ≤ l.foldl max b := by
  induction l with
  | nil => intro b x hx; simp at hx
  | cons r t ih =>
    intro b x hx
    rw [List.foldl_cons]
    rcases List.mem_cons.mp hx with h | h
    · rw [h]
      exact le_trans (le_max_right b r) (le_foldl_max t (max b r))
    · exact ih (max b r) x h

/-- A `max`-fold is the start value or one of the list elements. -/
theorem foldl_max_mem (l : List ℚ) : ∀ b : ℚ, l.foldl max b = b ∨ l.foldl max b ∈ l := by
  induction l with
  | nil => intro b; left; rfl
  | cons r t ih =>
    intro b
    rw [List.foldl_cons]
    rcases ih (max b r) with h | h
    · rcases max_choice b r with h1 | h1
      · left
        rw [h, h1]
      · right
        rw [h, h1]
        exact List.mem_cons_self r t
    · right
      exact List.mem_cons_of_mem r h

/-- The first component of the `pickStep` fold is the running maximum of
the window `r²` values. -/
theorem pickFold_fst (ws : List WinInfo) :
    ∀ (b : ℚ) (p : Option (ℚ × ℚ × ℚ × ℚ)),
      (ws.foldl pickStep (b, p)).1 = (ws.map WinInfo.r2).foldl max b := by
  induction ws with
  | nil => intro b p; rfl
  | cons u t ih =>
    intro b p
    rw [List.foldl_cons, List.map_cons, List.foldl_cons]
    simp only [pickStep]
    by_cases h : b < u.r2
    · rw [if_pos h, ih, max_eq_right (le_of_lt h)]
    · rw [if_neg h, ih, max_eq_left (le_of_not_lt h)]

/-- If no window beats the start value, the `pickStep` fold keeps the
start accumulator: no update ever fires. -/
theorem pickFold_stay (ws : List WinInfo) :
    ∀ (b : ℚ) (p : Option (ℚ × ℚ × ℚ × ℚ)), (∀ u ∈ ws, u.r2 ≤ b) →
      ws.foldl pickStep (b, p) = (b, p) := by
  induction ws with
  | nil => intro b p _; rfl
  | cons u t ih =>
    intro b p hle
    rw [List.foldl_cons]
    simp only [pickStep]
    rw [if_neg (not_lt.mpr (hle u (List.mem_cons_self u t)))]
    exact ih b p (fun v hv => hle v (List.mem_cons_of_mem u hv))

/-- When some window beats the start value, the `pickStep` fold selects the
FIRST window attaining the maximum `r²` — ties go to the earlier window,
because the update condition is a strict inequality. -/
theorem pickFold_snd (ws : List WinInfo) :
    ∀ (b : ℚ) (p : Option (ℚ × ℚ × ℚ × ℚ)),
      b < (ws.map WinInfo.r2).foldl max b →
      (ws.foldl pickStep (b, p)).2 =
        (ws.find? (fun u => decide ((ws.map WinInfo.r2).foldl max b ≤ u.r2))).map
          (fun u => (u.xa, u.ya, u.xb, u.yb)) := by
  induction ws with
  | nil =>
    intro b p hb
    simp at hb
  | cons u t ih =>
    intro b p hb
    rw [List.foldl_cons]
    simp only [pickStep]
    by_cases hbu : b < u.r2
    · rw [if_pos hbu]
      have hM : ((u :: t).map WinInfo.r2).foldl max b =
          (t.map WinInfo.r2).foldl max u.r2 := by
        rw [List.map_cons, List.foldl_cons, max_eq_right (le_of_lt hbu)]
      rw [hM]
      by_cases hum : u.r2 < (t.map WinInfo.r2).foldl max u.r2
      · have hskip : List.find?
            (fun v => decide ((t.map WinInfo.r2).foldl max u.r2 ≤ v.r2)) (u :: t) =
            List.find? (fun v => decide ((t.map WinInfo.r2).foldl max u.r2 ≤ v.r2)) t :=
          List.find?_cons_of_neg t (by
            simp only [decide_eq_true_eq]
            exact not_le.mpr hum)
        rw [hskip]
        exact ih u.r2 (some (u.xa, u.ya, u.xb, u.yb)) hum
      · have hMu : (t.map WinInfo.r2).foldl max u.r2 = u.r2 :=
          le_antisymm (not_lt.mp hum) (le_foldl_max _ _)
        have hhit : List.find?
            (fun v => decide ((t.map WinInfo.r2).foldl max u.r2 ≤ v.r2)) (u :: t) =
            some u :=
          List.find?_cons_of_pos t (by
            simp only [decide_eq_true_eq]
            exact le_of_eq hMu)
        rw [hhit]
        rw [pickFold_stay t u.r2 (some (u.xa, u.ya, u.xb, u.yb)) (fun v hv => by
          have hvle := mem_le_foldl_max (t.map WinInfo.r2) u.r2 v.r2
            (List.mem_map.mpr ⟨v, hv, rfl⟩)
          rw [hMu] at hvle
          exact hvle)]
        rfl
    · rw [if_neg hbu]
      have hM : ((u :: t).map WinInfo.r2).foldl max b =
          (t.map WinInfo.r2).foldl max b := by
        rw [List.map_cons, List.foldl_cons, max_eq_left (le_of_not_lt hbu)]
      rw [hM] at hb
      rw [hM]
      have hskip : List.find?
          (fun v => decide ((t.map WinInfo.r2).foldl max b ≤ v.r2)) (u :: t) =
          List.find? (fun v => decide ((t.map WinInfo.r2).foldl max b ≤ v.r2)) t :=
        List.find?_cons_of_neg t (by
          simp only [decide_eq_true_eq]
          exact not_le.mpr (lt_of_le_of_lt (le_of_not_lt hbu) hb))
      rw [hskip]
      exact ih b p hb

/-- A monadic fold over `Except` whose every step succeeds equals the pure
fold of the step results. -/
theorem foldlM_eq_ok {ε α β : Type} (f : α → β → Except ε α) (g : α → β → α)
    (l : List β) : ∀ a : α, (∀ x ∈ l, ∀ acc, f acc x = .ok (g acc x)) →
      l.foldlM f a = .ok (l.foldl g a) := by
  induction l with
  | nil => intro a _; rfl
  | cons x t ih =>
    intro a h
    rw [List.foldlM_cons, h x (List.mem_cons_self x t) a]
    show t.foldlM f (g a x) = _
    rw [List.foldl_cons]
    exact ih (g a x) (fun y hy acc => h y (List.mem_cons_of_mem x hy) acc)

/-- Under positive logExposures and a not-all-identical window, window `i`'s
regression succeeds and one loop iteration equals the pure `pickStep` on the
window's record. -/
theorem scanStep_ok_of_window (lg : ℚ → ℚ) (pairs : List (ℚ × ℚ)) (w i : ℕ)
    (hw : 1 ≤ w) (hiw : i + w ≤ pairs.length)
    (hpos : ∀ x ∈ pairs.map Prod.fst, 0 < x)
    (hmono : ∀ a b : ℚ, 0 < a → 0 < b → a < b → lg a < lg b)
    (htv : hasTwoValues (((pairs.map Prod.fst).drop i).take w)) :
    ∀ acc, scanStep ((pairs.map Prod.fst).map (npLog10 lg)) (pairs.map Prod.fst)
        (pairs.map Prod.snd) w acc i =
      .ok (pickStep acc
        { r2 := r2Of ((((pairs.map Prod.fst).drop i).take w).map lg)
                  (((pairs.map Prod.snd).drop i).take w),
          xa := (pairs.map Prod.fst).getD i 0,
          ya := (pairs.map Prod.snd).getD i 0,
          xb := (pairs.map Prod.fst).getD (i + w - 1) 0,
          yb := (pairs.map Prod.snd).getD (i + w - 1) 0 }) := by
  intro acc
  have hxlen : (pairs.map Prod.fst).length = pairs.length := List.length_map _ _
  have hslen : ((((pairs.map Prod.fst).drop i).take w)).length = w := by
    rw [List.length_take, List.length_drop, hxlen]
    omega
  have hsne : (((pairs.map Prod.fst).drop i).take w) ≠ [] := by
    intro hnil
    rw [hnil] at hslen
    simp at hslen
    omega
  have hxpos : ∀ x ∈ ((pairs.map Prod.fst).drop i).take w, 0 < x :=
    fun x hx => hpos x (List.mem_of_mem_drop (List.mem_of_mem_take hx))
  have hlslice : (((pairs.map Prod.fst).map (npLog10 lg)).drop i).take w =
      (((pairs.map Prod.fst).drop i).take w).map (npLog10 lg) := by
    rw [← List.map_drop, ← List.map_take]
  have hhead : (((pairs.map Prod.fst).drop i).take w).headD 0 ∈
      ((pairs.map Prod.fst).drop i).take w := by
    rw [List.headD_eq_head?, List.head?_eq_head hsne]
    exact List.head_mem hsne
  obtain ⟨a, ha, hane⟩ := htv
  have hcond1 : ¬ ((LogVal.nan ∉ (((pairs.map Prod.fst).drop i).take w).map (npLog10 lg)) ∧
      1 < ((((pairs.map Prod.fst).drop i).take w).map (npLog10 lg)).length ∧
      (∀ l ∈ (((pairs.map Prod.fst).drop i).take w).map (npLog10 lg),
        l = ((((pairs.map Prod.fst).drop i).take w).map (npLog10 lg)).headD .nan)) := by
    intro hc
    have hall := hc.2.2 (npLog10 lg a) (List.mem_map.mpr ⟨a, ha, rfl⟩)
    have hh : ((((pairs.map Prod.fst).drop i).take w).map (npLog10 lg)).headD .nan =
        npLog10 lg ((((pairs.map Prod.fst).drop i).take w).headD 0) := by
      rw [List.headD_eq_head?, List.head?_map, List.headD_eq_head?,
        List.head?_eq_head hsne]
      rfl
    rw [hh] at hall
    have hpa := hxpos a ha
    have hph := hxpos _ hhead
    simp only [npLog10] at hall
    rw [if_pos hpa, if_pos hph] at hall
    have heqlg : lg a = lg ((((pairs.map Prod.fst).drop i).take w).headD 0) :=
      LogVal.val.inj hall
    rcases lt_trichotomy a ((((pairs.map Prod.fst).drop i).take w).headD 0) with
      hlt | heq | hgt
    · exact absurd heqlg (ne_of_lt (hmono _ _ hpa hph hlt))
    · exact hane heq
    · exact absurd heqlg.symm (ne_of_lt (hmono _ _ hph hpa hgt))
  have hcond2 : ¬ (LogVal.nan ∈ (((pairs.map Prod.fst).drop i).take w).map (npLog10 lg) ∨
      LogVal.ninf ∈ (((pairs.map Prod.fst).drop i).take w).map (npLog10 lg)) := by
    intro hc
    rcases hc with hc | hc
    · obtain ⟨x, hxm, hxe⟩ := List.mem_map.mp hc
      simp only [npLog10] at hxe
      rw [if_pos (hxpos x hxm)] at hxe
      exact val_ne_nan _ hxe
    · obtain ⟨x, hxm, hxe⟩ := List.mem_map.mp hc
      simp only [npLog10] at hxe
      rw [if_pos (hxpos x hxm)] at hxe
      exact val_ne_ninf _ hxe
  have htoq : ((((pairs.map Prod.fst).drop i).take w).map (npLog10 lg)).map LogVal.toQ =
      (((pairs.map Prod.fst).drop i).take w).map lg := by
    rw [List.map_map]
    exact List.map_congr_left (fun x hx => by
      have hxp := hxpos x hx
      simp [Function.comp, npLog10, hxp, LogVal.toQ])
  have hwr : windowR2 ((((pairs.map Prod.fst).map (npLog10 lg)).drop i).take w)
      (((pairs.map Prod.snd).drop i).take w) =
      .ok (some (r2Of ((((pairs.map Prod.fst).drop i).take w).map lg)
        (((pairs.map Prod.snd).drop i).take w))) := by
    rw [hlslice]
    unfold windowR2
    rw [if_neg hcond1, if_neg hcond2, htoq]
  unfold scanStep
  rw [hwr]
  simp only [pickStep]
  by_cases h : acc.1 < r2Of ((((pairs.map Prod.fst).drop i).take w).map lg)
      (((pairs.map Prod.snd).drop i).take w)
  · rw [if_pos h, if_pos h]
  · rw [if_neg h, if_neg h]

/-- C5 as amended: with at least `windowSize` samples, all logExposures
positive, `lg` strictly increasing (as `log10` is), and no window of the
sorted samples consisting of a single repeated logExposure (which would
make `linregress` raise `ValueError` — see the counterexample),
`calculate_contrast_index` scans every contiguous window of size `w`
sliding by 1 (`windowInfos`), tracks the maximum `r²` (`foldl max`) with
the first window winning ties (`find?` returns the first attaining it),
and returns that window's boundary samples and contrast index exactly when
the best `r²` exceeds `0.98²`; otherwise it returns absence. -/
theorem c5_first_max_window_threshold (lg : ℚ → ℚ) (xv yv : List ℚ) (w : ℕ)
    (hw : 1 ≤ w) (hx : w ≤ xv.length) (hy : w ≤ yv.length)
    (hpos : ∀ x ∈ xv, 0 < x)
    (hmono : ∀ a b : ℚ, 0 < a → 0 < b → a < b → lg a < lg b)
    (htv : ∀ i, i + w ≤ (xv.zip yv).length →
      hasTwoValues ((((sortPairs (xv.zip yv)).map Prod.fst).drop i).take w)) :
    calculate_contrast_index lg xv yv w =
      .ok
        (if (49 / 50 : ℚ) ^ 2 <
            ((windowInfos lg (sortPairs (xv.zip yv)) w).map WinInfo.r2).foldl max 0 then
          ((windowInfos lg (sortPairs (xv.zip yv)) w).find? (fun u =>
              decide (((windowInfos lg (sortPairs (xv.zip yv)) w).map WinInfo.r2).foldl
                max 0 ≤ u.r2))).map
            (fun u => ((u.yb - u.ya) / (u.xb - u.xa), (u.xa, u.ya, u.xb, u.yb)))
        else none) := by
  have hplen : (sortPairs (xv.zip yv)).length = (xv.zip yv).length :=
    length_sortPairs _
  have hzlen : w ≤ (xv.zip yv).length := by
    rw [List.length_zip]
    exact le_min hx hy
  have hposs : ∀ x ∈ (sortPairs (xv.zip yv)).map Prod.fst, 0 < x := by
    intro x hxm
    obtain ⟨p, hp, hpe⟩ := List.mem_map.mp hxm
    have hpz := mem_sortPairs.mp hp
    rw [← hpe]
    exact hpos _ (List.of_mem_zip hpz).1
  have hsteps : ∀ j ∈ List.range ((sortPairs (xv.zip yv)).length - w + 1), ∀ acc,
      scanStep (((sortPairs (xv.zip yv)).map Prod.fst).map (npLog10 lg))
        ((sortPairs (xv.zip yv)).map Prod.fst) ((sortPairs (xv.zip yv)).map Prod.snd)
        w acc j =
      .ok (pickStep acc
        { r2 := r2Of (((((sortPairs (xv.zip yv)).map Prod.fst).drop j).take w).map lg)
                  ((((sortPairs (xv.zip yv)).map Prod.snd).drop j).take w),
          xa := ((sortPairs (xv.zip yv)).map Prod.fst).getD j 0,
          ya := ((sortPairs (xv.zip yv)).map Prod.snd).getD j 0,
          xb := ((sortPairs (xv.zip yv)).map Prod.fst).getD (j + w - 1) 0,
          yb := ((sortPairs (xv.zip yv)).map Prod.snd).getD (j + w - 1) 0 }) := by
    intro j hj acc
    have hjr := List.mem_range.mp hj
    have hwp : w ≤ (sortPairs (xv.zip yv)).length := by
      rw [hplen]
      exact hzlen
    have hjw : j + w ≤ (sortPairs (xv.zip yv)).length := by omega
    exact scanStep_ok_of_window lg (sortPairs (xv.zip yv)) w j hw hjw hposs hmono
      (htv j (by rw [← hplen]; exact hjw)) acc
  have hscan : scanWindows (((sortPairs (xv.zip yv)).map Prod.fst).map (npLog10 lg))
      ((sortPairs (xv.zip yv)).map Prod.fst) ((sortPairs (xv.zip yv)).map Prod.snd) w
      = .ok ((windowInfos lg (sortPairs (xv.zip yv)) w).foldl pickStep (0, none)) := by
    unfold scanWindows
    rw [List.length_map]
    rw [foldlM_eq_ok _ (fun acc j => pickStep acc
        { r2 := r2Of (((((sortPairs (xv.zip yv)).map Prod.fst).drop j).take w).map lg)
                  ((((sortPairs (xv.zip yv)).map Prod.snd).drop j).take w),
          xa := ((sortPairs (xv.zip yv)).map Prod.fst).getD j 0,
          ya := ((sortPairs (xv.zip yv)).map Prod.snd).getD j 0,
          xb := ((sortPairs (xv.zip yv)).map Prod.fst).getD (j + w - 1) 0,
          yb := ((sortPairs (xv.zip yv)).map Prod.snd).getD (j + w - 1) 0 })
      (List.range ((sortPairs (xv.zip yv)).length - w + 1)) (0, none) hsteps]
    unfold windowInfos
    rw [List.foldl_map]
  unfold calculate_contrast_index
  rw [if_neg (by
    simp only [not_or, not_lt]
    exact ⟨hx, hy⟩)]
  simp only
  rw [hscan]
  rw [show (windowInfos lg (sortPairs (xv.zip yv)) w).foldl pickStep
      ((0 : ℚ), (none : Option (ℚ × ℚ × ℚ × ℚ))) =
      (((windowInfos lg (sortPairs (xv.zip yv)) w).map WinInfo.r2).foldl max 0,
       ((windowInfos lg (sortPairs (xv.zip yv)) w).foldl pickStep (0, none)).2) from by
    rw [← pickFold_fst]]
  by_cases hth : (49 / 50 : ℚ) ^ 2 <
      ((windowInfos lg (sortPairs (xv.zip yv)) w).map WinInfo.r2).foldl max 0
  · have hM0 : (0 : ℚ) <
        ((windowInfos lg (sortPairs (xv.zip yv)) w).map WinInfo.r2).foldl max 0 :=
      lt_trans (by norm_num) hth
    have hsnd := pickFold_snd (windowInfos lg (sortPairs (xv.zip yv)) w) 0 none hM0
    have hmem : ((windowInfos lg (sortPairs (xv.zip yv)) w).map WinInfo.r2).foldl max 0
        ∈ (windowInfos lg (sortPairs (xv.zip yv)) w).map WinInfo.r2 := by
      rcases foldl_max_mem ((windowInfos lg (sortPairs (xv.zip yv)) w).map WinInfo.r2) 0
        with h0 | hm
      · rw [h0] at hM0
        exact absurd hM0 (lt_irrefl 0)
      · exact hm
    obtain ⟨u0, hu0, hu0e⟩ := List.mem_map.mp hmem
    have hfs : ((windowInfos lg (sortPairs (xv.zip yv)) w).find? (fun u =>
        decide (((windowInfos lg (sortPairs (xv.zip yv)) w).map WinInfo.r2).foldl
          max 0 ≤ u.r2))).isSome :=
      List.find?_isSome.mpr ⟨u0, hu0, by simp [hu0e]⟩
    obtain ⟨v, hv⟩ := Option.isSome_iff_exists.mp hfs
    rw [hv] at hsnd
    rw [hsnd, hv]
    simp [hth]
  · rcases h2 : ((windowInfos lg (sortPairs (xv.zip yv)) w).foldl pickStep (0, none)).2
      with _ | pts
    · simp [hth]
    · simp [hth]

/-- Witness for `c5_first_max_window_threshold` at 12 strictly increasing
positive samples with window size 11 and the concrete strictly increasing
log stand-in. -/
theorem c5_first_max_window_threshold_witness :
    ((1 : ℕ) ≤ 11 ∧
     11 ≤ ([1, 2, 3, 4, 5, 6, 7, 8, 9, 10, 11, 12] : List ℚ).length ∧
     (∀ x ∈ ([1, 2, 3, 4, 5, 6, 7, 8, 9, 10, 11, 12] : List ℚ), 0 < x) ∧
     (∀ a b : ℚ, 0 < a → 0 < b → a < b → logStandIn a < logStandIn b) ∧
     (∀ i, i + 11 ≤ (([1, 2, 3, 4, 5, 6, 7, 8, 9, 10, 11, 12] : List ℚ).zip
          ([1, 2, 3, 4, 5, 6, 7, 8, 9, 10, 11, 12] : List ℚ)).length →
        hasTwoValues ((((sortPairs (([1, 2, 3, 4, 5, 6, 7, 8, 9, 10, 11, 12] : List ℚ).zip
          [1, 2, 3, 4, 5, 6, 7, 8, 9, 10, 11, 12])).map Prod.fst).drop i).take 11))) ∧
    calculate_contrast_index logStandIn [1, 2, 3, 4, 5, 6, 7, 8, 9, 10, 11, 12]
        [1, 2, 3, 4, 5, 6, 7, 8, 9, 10, 11, 12] 11 =
      .ok
        (if (49 / 50 : ℚ) ^ 2 <
            ((windowInfos logStandIn (sortPairs (([1, 2, 3, 4, 5, 6, 7, 8, 9, 10, 11, 12] :
                List ℚ).zip [1, 2, 3, 4, 5, 6, 7, 8, 9, 10, 11, 12])) 11).map
              WinInfo.r2).foldl max 0 then
          ((windowInfos logStandIn (sortPairs (([1, 2, 3, 4, 5, 6, 7, 8, 9, 10, 11, 12] :
              List ℚ).zip [1, 2, 3, 4, 5, 6, 7, 8, 9, 10, 11, 12])) 11).find? (fun u =>
              decide (((windowInfos logStandIn (sortPairs (([1, 2, 3, 4, 5, 6, 7, 8, 9, 10,
                11, 12] : List ℚ).zip [1, 2, 3, 4, 5, 6, 7, 8, 9, 10, 11, 12])) 11).map
                WinInfo.r2).foldl max 0 ≤ u.r2))).map
            (fun u => ((u.yb - u.ya) / (u.xb - u.xa), (u.xa, u.ya, u.xb, u.yb)))
        else none) := by
  have hpos : ∀ x ∈ ([1, 2, 3, 4, 5, 6, 7, 8, 9, 10, 11, 12] : List ℚ), 0 < x := by
    intro x hx
    simp only [List.mem_cons, List.not_mem_nil, or_false] at hx
    rcases hx with rfl | rfl | rfl | rfl | rfl | rfl | rfl | rfl | rfl | rfl | rfl | rfl <;>
      norm_num
  have hmono : ∀ a b : ℚ, 0 < a → 0 < b → a < b → logStandIn a < logStandIn b := by
    intro a b _ _ hab
    simpa [logStandIn, sub_lt_sub_iff_right] using hab
  have htv : ∀ i, i + 11 ≤ (([1, 2, 3, 4, 5, 6, 7, 8, 9, 10, 11, 12] : List ℚ).zip
      ([1, 2, 3, 4, 5, 6, 7, 8, 9, 10, 11, 12] : List ℚ)).length →
      hasTwoValues ((((sortPairs (([1, 2, 3, 4, 5, 6, 7, 8, 9, 10, 11, 12] : List ℚ).zip
        [1, 2, 3, 4, 5, 6, 7, 8, 9, 10, 11, 12])).map Prod.fst).drop i).take 11) := by
    intro i hi
    have hlen : (([1, 2, 3, 4, 5, 6, 7, 8, 9, 10, 11, 12] : List ℚ).zip
        ([1, 2, 3, 4, 5, 6, 7, 8, 9, 10, 11, 12] : List ℚ)).length = 12 := by
      simp
    rw [hlen] at hi
    have hi1 : i ≤ 1 := by omega
    interval_cases i <;>
      norm_num [hasTwoValues, sortPairs, insertPair, List.zip, List.zipWith]
  exact ⟨⟨by norm_num, by simp, hpos, hmono, htv⟩,
    c5_first_max_window_threshold logStandIn
      [1, 2, 3, 4, 5, 6, 7, 8, 9, 10, 11, 12] [1, 2, 3, 4, 5, 6, 7, 8, 9, 10, 11, 12] 11
      (by norm_num) (by simp) (by simp) hpos hmono htv⟩

/-- C5 counterexample: eleven samples, all with the same positive
logExposure 1.  The underlying `linregress` raises
`ValueError: all x values are identical`, so `calculate_contrast_index`
neither returns a region nor absence — it propagates an exception,
refuting the claim as stated for this input (every sample's logExposure is
the positive value 1, so the input satisfies the claim's hypotheses). -/
theorem c5_counterexample_identical_x :
    (0 : ℚ) < 1 ∧
    11 ≤ (List.replicate 11 (1 : ℚ)).length ∧
    calculate_contrast_index logStandIn (List.replicate 11 1)
      [0, 1, 2, 3, 4, 5, 6, 7, 8, 9, 10] 11 = .error .valueError := by
  refine ⟨by norm_num, by simp, ?_⟩
  norm_num [calculate_contrast_index, scanWindows, scanStep, windowR2, sortPairs,
    insertPair, npLog10, logStandIn, List.replicate, List.range, List.range.loop,
    List.zip, List.zipWith, List.foldlM, r2Of, LogVal.toQ, Bool.cond_decide,
    List.cons_ne_nil, ne_eq, nan_ne_val, ninf_ne_val, val_ne_nan, val_ne_ninf,
    Bind.bind, Except.bind, Except.instMonad, Except.pure]

end FilmDensitometry
